import Mathlib

/-!
Verification of the fasttemplate library (package `fasttemplate`).

The embedding models Go strings and byte slices as `List Char` (`Str`).
Stateful `io.Writer` sinks become explicit state passing: a writer is a
state type `σ` together with a `write` step returning the reported byte
count, an optional error (`none` models a `nil` Go error) and the sink's
next state.  Go panics are modelled as dedicated result constructors.
-/

namespace Fasttemplate

/-- Go strings and byte slices, modelled as lists of characters. -/
abbrev Str := List Char

/-- `strings.Index(s, pat)`: index of the first occurrence of `pat` in `s`,
`none` when there is no occurrence (Go returns `-1`).  The empty pattern
occurs at index `0`, as in Go. -/
def strIndex : Str → Str → Option Nat
  | s, pat =>
    if pat.isPrefixOf s then some 0
    else
      match s with
      | [] => none
      | _ :: rest => (strIndex rest pat).map (· + 1)

/-- Auxiliary scanner for `strings.Count`: counts non-overlapping
occurrences; `skip` is the number of characters still covered by the
previously matched occurrence. -/
def countAux (sep : Str) : Str → Nat → Nat
  | [], _ => 0
  | c :: rest, 0 =>
    if sep.isPrefixOf (c :: rest) then 1 + countAux sep rest (sep.length - 1)
    else countAux sep rest 0
  | _ :: rest, skip + 1 => countAux sep rest skip

/-- `strings.Count(s, sep)`: number of non-overlapping occurrences of
`sep` in `s`; for the empty separator Go returns `len(s) + 1`. -/
def strCount (s sep : Str) : Nat :=
  if sep = [] then s.length + 1 else countAux sep s 0

theorem strIndex_nil_of_isPrefixOf_eq_false {pat : Str}
    (h : pat.isPrefixOf ([] : Str) = false) : strIndex [] pat = none := by
  rw [strIndex.eq_def]
  simp [h]

theorem strIndex_cons_of_isPrefixOf_eq_false {pat : Str} {c : Char} {rest : Str}
    (h : pat.isPrefixOf (c :: rest) = false) :
    strIndex (c :: rest) pat = (strIndex rest pat).map (· + 1) := by
  rw [strIndex.eq_def]
  simp [h]

theorem strIndex_of_isPrefixOf {s pat : Str} (h : pat.isPrefixOf s) :
    strIndex s pat = some 0 := by
  rw [strIndex.eq_def]
  simp [h]

/-- At the index reported by `strIndex`, the pattern is in fact present. -/
theorem strIndex_isPrefixOf_drop {s pat : Str} {n : Nat}
    (h : strIndex s pat = some n) : pat <+: s.drop n := by
  induction s generalizing n with
  | nil =>
    cases hp : pat.isPrefixOf ([] : Str) with
    | true =>
      rw [strIndex_of_isPrefixOf hp] at h
      cases h
      simpa using List.isPrefixOf_iff_prefix.mp hp
    | false =>
      rw [strIndex_nil_of_isPrefixOf_eq_false hp] at h
      cases h
  | cons c rest ih =>
    cases hp : pat.isPrefixOf (c :: rest) with
    | true =>
      rw [strIndex_of_isPrefixOf hp] at h
      cases h
      simpa using List.isPrefixOf_iff_prefix.mp hp
    | false =>
      rw [strIndex_cons_of_isPrefixOf_eq_false hp] at h
      cases hi : strIndex rest pat with
      | none => rw [hi] at h; cases h
      | some m =>
        rw [hi] at h
        simp only [Option.map_some'] at h
        cases h
        exact ih hi

theorem strIndex_le_length {s pat : Str} {n : Nat}
    (h : strIndex s pat = some n) : n ≤ s.length := by
  induction s generalizing n with
  | nil =>
    cases hp : pat.isPrefixOf ([] : Str) with
    | true => rw [strIndex_of_isPrefixOf hp] at h; cases h; simp
    | false => rw [strIndex_nil_of_isPrefixOf_eq_false hp] at h; cases h
  | cons c rest ih =>
    cases hp : pat.isPrefixOf (c :: rest) with
    | true => rw [strIndex_of_isPrefixOf hp] at h; cases h; simp
    | false =>
      rw [strIndex_cons_of_isPrefixOf_eq_false hp] at h
      cases hi : strIndex rest pat with
      | none => rw [hi] at h; cases h
      | some m =>
        rw [hi] at h
        simp only [Option.map_some'] at h
        cases h
        simpa using ih hi

theorem strIndex_add_length_le {s pat : Str} {n : Nat}
    (h : strIndex s pat = some n) : n + pat.length ≤ s.length := by
  have h1 := strIndex_le_length h
  have h2 := (strIndex_isPrefixOf_drop h).length_le
  rw [List.length_drop] at h2
  omega

/-- Splitting a string at the first occurrence of a pattern. -/
theorem strIndex_split {s pat : Str} {n : Nat}
    (h : strIndex s pat = some n) :
    s = s.take n ++ pat ++ s.drop (n + pat.length) := by
  obtain ⟨t, ht⟩ := strIndex_isPrefixOf_drop h
  have hd : s.drop (n + pat.length) = t := by
    have h3 : List.drop pat.length (List.drop n s) = t := by
      rw [← ht]; simp
    rw [List.drop_drop] at h3
    exact h3
  calc s = s.take n ++ s.drop n := by simp
    _ = s.take n ++ pat ++ s.drop (n + pat.length) := by
        rw [← ht, hd, List.append_assoc]

theorem strCount_eq_zero_iff {s sep : Str} (hsep : sep ≠ []) :
    strCount s sep = 0 ↔ strIndex s sep = none := by
  rw [strCount, if_neg hsep]
  induction s with
  | nil =>
    have hp : sep.isPrefixOf ([] : Str) = false := by
      cases sep with
      | nil => exact absurd rfl hsep
      | cons a l => rfl
    rw [strIndex_nil_of_isPrefixOf_eq_false hp]
    simp [countAux]
  | cons c rest ih =>
    cases hp : sep.isPrefixOf (c :: rest) with
    | true =>
      rw [strIndex_of_isPrefixOf hp]
      simp [countAux, hp]
    | false =>
      rw [strIndex_cons_of_isPrefixOf_eq_false hp]
      rw [countAux, hp]
      simp only [Bool.false_eq_true, if_false]
      rw [ih]
      cases hi : strIndex rest sep <;> simp

/-- The `Template` struct: raw template bytes (`template`), literal text
chunks (`texts`) and tag names (`tags`).  Mirrors

    type Template struct { template []byte; texts [][]byte; tags []string }

The general parse path of `NewTemplate` never assigns `template`, so it
stays `[]` (Go `nil`) there; only the zero-tag fast path stores the raw
template. -/
structure Template where
  template : Str
  texts : List Str
  tags : List Str
deriving DecidableEq, Repr

/-- The data carried by the error built at `template.go`:

    fmt.Errorf("fasttemplate: missing end tag=%q in template=%q starting from %q",
               endTag, template, s)

kept structured (the three formatted operands) instead of rendering the
`%q` quoting. -/
structure MissingEndTagErr where
  endTag : Str
  template : Str
  startingFrom : Str
deriving DecidableEq, Repr

/-- What a Go panic carries: either a string message (the empty-delimiter
precondition panics) or an error value (`New` does `panic(err)`). -/
inductive PanicPayload where
  | msg (s : String)
  | errv (e : MissingEndTagErr)
deriving DecidableEq, Repr

/-- Outcome of the constructors: a panic, a returned error, or a parsed
template. -/
inductive NewOut where
  | panicked (p : PanicPayload)
  | err (e : MissingEndTagErr)
  | ok (t : Template)
deriving DecidableEq, Repr

/-- The scanning loop of `NewTemplate` (template.go lines 67-87): find the
next `startTag`; if none, the rest is the final literal; otherwise emit
the text before it as a literal, then find `endTag` in the remainder after
the consumed `startTag` (fail if absent), emit the text before it as a tag
name, and continue after the consumed `endTag`.  `tmpl` is the full
original template, used only in the error value; `s` is the unconsumed
remainder (the Go code keeps it in both `s` and `st`). -/
def parseLoop (tmpl startTag endTag : Str) (hst : startTag ≠ []) (s : Str) :
    Except MissingEndTagErr (List Str × List Str) :=
  match hn : strIndex s startTag with
  | none => .ok ([s], [])
  | some n =>
    let s1 := s.drop (n + startTag.length)
    match strIndex s1 endTag with
    | none => .error ⟨endTag, tmpl, s1⟩
    | some m =>
      match parseLoop tmpl startTag endTag hst (s1.drop (m + endTag.length)) with
      | .error e => .error e
      | .ok (texts, tags) => .ok (s.take n :: texts, s1.take m :: tags)
termination_by s.length
decreasing_by
  have h1 := strIndex_add_length_le hn
  have h2 : 1 ≤ startTag.length := by
    cases startTag with
    | nil => exact absurd rfl hst
    | cons a l => simp
  simp only [List.length_drop]
  omega

/-- `NewTemplate` (template.go lines 45-90): panics on an empty delimiter,
takes the zero-tag fast path when `strings.Count` finds no `startTag`
occurrence, and otherwise runs the scanning loop.  In the general path
the `template` field is never assigned (stays `nil`). -/
def newTemplate (tmpl startTag endTag : Str) : NewOut :=
  if hst : startTag = [] then .panicked (.msg "fasttemplate: startTag cannot be empty")
  else if endTag = [] then .panicked (.msg "fasttemplate: endTag cannot be empty")
  else if strCount tmpl startTag = 0 then .ok ⟨tmpl, [], []⟩
  else
    match parseLoop tmpl startTag endTag hst tmpl with
    | .error e => .err e
    | .ok (texts, tags) => .ok ⟨[], texts, tags⟩

/-- `New` (template.go lines 32-38): delegates to `NewTemplate` and turns a
returned error into `panic(err)`. -/
def new (tmpl startTag endTag : Str) : NewOut :=
  match newTemplate tmpl startTag endTag with
  | .err e => .panicked (.errv e)
  | r => r

/-- An `io.Writer`: a sink with state type `σ`; `write s p` returns the
reported byte count, an optional error (`none` is Go's `nil`) and the
sink's next state.  Go mutates the sink in place; the embedding threads
its state explicitly. -/
structure GoWriter (σ ε : Type) where
  write : σ → Str → Nat × Option ε × σ

/-- Outcome of one resolver call (`TagFunc`): the returned error plus the
sink state after whatever the resolver wrote, or a panic. -/
inductive TagOut (σ ε : Type) where
  | ret (e : Option ε) (s : σ)
  | panicked
deriving DecidableEq

/-- `type TagFunc func(w io.Writer, tag string) error`, over sink state. -/
abbrev TagFn (σ ε : Type) := σ → Str → TagOut σ ε

/-- Outcome of a render call: the returned error (the only value
`ExecuteFunc` returns to its caller) plus the sink's final state, or a
panic propagated out of the call. -/
inductive ExecOut (σ ε : Type) where
  | ret (e : Option ε) (s : σ)
  | panicked
deriving DecidableEq

/-- The loop of `ExecuteFunc` (template.go lines 107-118) for non-empty
`texts`: for `i < len(texts)-1` write `texts[i]` (abort on error), call
`f` on `tags[i]` (abort on error), then write the final literal and
return its error.  The `tags = []` case with two or more literals is
Go's out-of-range panic on `t.tags[i]`; the empty-`texts` case never
reaches this loop (fast path in `executeFunc`). -/
def execLoop (W : GoWriter σ ε) (f : TagFn σ ε) :
    List Str → List Str → σ → ExecOut σ ε
  | [], _, s => .ret none s
  | [last], _, s =>
    let r := W.write s last
    .ret r.2.1 r.2.2
  | txt :: rest, tags, s =>
    let r := W.write s txt
    match r.2.1 with
    | some e => .ret (some e) r.2.2
    | none =>
      match tags with
      | [] => .panicked
      | tag :: tagsRest =>
        match f r.2.2 tag with
        | .panicked => .panicked
        | .ret (some e) s2 => .ret (some e) s2
        | .ret none s2 => execLoop W f rest tagsRest s2

/-- `ExecuteFunc` (template.go lines 100-119): with no literals
(`n == -1`) write the raw template once and return that write's error;
otherwise run the literal/tag loop. -/
def executeFunc (W : GoWriter σ ε) (t : Template) (f : TagFn σ ε) (s : σ) :
    ExecOut σ ε :=
  match t.texts with
  | [] =>
    let r := W.write s t.template
    .ret r.2.1 r.2.2
  | txt :: rest => execLoop W f (txt :: rest) t.tags s

/-- A value stored in the substitution map `map[string]interface{}`:
Go's `nil`, a `[]byte`, a `string`, a `TagFunc`, or a value of any other
type (rejected by `stdTagFunc`). -/
inductive GoVal (σ ε : Type) where
  | vnil
  | bytes (b : Str)
  | vstr (v : Str)
  | fn (f : TagFn σ ε)
  | other

/-- Go map indexing `m[tag]`: the stored value, or `nil` when the key is
absent. -/
def mapGet : List (Str × GoVal σ ε) → Str → GoVal σ ε
  | [], _ => .vnil
  | (k, v) :: rest, tag => if k = tag then v else mapGet rest tag

/-- `stdTagFunc` (template.go lines 186-203): `nil` value (including an
absent key) writes nothing and succeeds; `[]byte` and `string` values are
written verbatim, propagating the write's error; a `TagFunc` value is
invoked on the same sink and tag; any other type panics. -/
def stdTagFunc (W : GoWriter σ ε) (m : List (Str × GoVal σ ε)) (s : σ)
    (tag : Str) : TagOut σ ε :=
  match mapGet m tag with
  | .vnil => .ret none s
  | .bytes b =>
    let r := W.write s b
    .ret r.2.1 r.2.2
  | .vstr v =>
    let r := W.write s v
    .ret r.2.1 r.2.2
  | .fn f => f s tag
  | .other => .panicked

/-- `Execute` (template.go lines 128-132): `ExecuteFunc` with the default
map resolver over the same writer. -/
def execute (W : GoWriter σ ε) (t : Template) (m : List (Str × GoVal σ ε))
    (s : σ) : ExecOut σ ε :=
  executeFunc W t (fun w tag => stdTagFunc W m w tag) s

/-- An in-memory sink (`bytes.Buffer` / `strings.Builder`): accumulates
the written bytes, reports their count and never fails. -/
def accWriter (ε : Type) : GoWriter Str ε :=
  ⟨fun s p => (p.length, none, s ++ p)⟩

/-- Outcome of the buffer- and string-returning render variants: the
accumulated output, or a panic. -/
inductive BufOut where
  | ok (out : Str)
  | panicked
deriving DecidableEq, Repr

/-- `ExecuteFuncBytes` (template.go lines 138-145): render into a fresh
`bytes.Buffer`; a non-nil error from `ExecuteFunc` becomes a panic,
otherwise the buffer's contents are returned. -/
def executeFuncBytes (ε : Type) (f : TagFn Str ε) (t : Template) : BufOut :=
  match executeFunc (accWriter ε) t f [] with
  | .ret none s => .ok s
  | .ret (some _) _ => .panicked
  | .panicked => .panicked

/-- `ExecuteBytes` (template.go lines 154-158). -/
def executeBytes (ε : Type) (m : List (Str × GoVal Str ε)) (t : Template) :
    BufOut :=
  executeFuncBytes ε (fun w tag => stdTagFunc (accWriter ε) m w tag) t

/-- `ExecuteFuncString` (template.go lines 164-171): same as the bytes
variant but into a `strings.Builder`, returning its accumulated string
(over `Str` the byte-to-string conversion is the identity). -/
def executeFuncString (ε : Type) (f : TagFn Str ε) (t : Template) : BufOut :=
  match executeFunc (accWriter ε) t f [] with
  | .ret none s => .ok s
  | .ret (some _) _ => .panicked
  | .panicked => .panicked

/-- `ExecuteString` (template.go lines 180-184). -/
def executeString (ε : Type) (m : List (Str × GoVal Str ε)) (t : Template) :
    BufOut :=
  executeFuncString ε (fun w tag => stdTagFunc (accWriter ε) m w tag) t

/-- Modelled from the spec: the in-place re-parse entry point ("Reset",
spec §6/§8) is not among this repository's sources — only the related
upstream documentation shows it.  Per the spec it rebinds an existing
parsed-template instance to new template text and delimiters: it first
truncates the instance's literal and tag storage (discarding all prior
entries; capacity reuse has no semantic counterpart here), checks the
non-empty-delimiter preconditions, retains the raw template content, and
re-runs the parse algorithm of §4.1, storing the new literals and tags. -/
def reset (t : Template) (tmpl startTag endTag : Str) : NewOut :=
  let t0 : Template := { t with texts := [], tags := [] }
  if hst : startTag = [] then .panicked (.msg "startTag cannot be empty")
  else if endTag = [] then .panicked (.msg "endTag cannot be empty")
  else
    let t1 : Template := { t0 with template := tmpl }
    if strCount tmpl startTag = 0 then .ok t1
    else
      match parseLoop tmpl startTag endTag hst tmpl with
      | .error e => .err e
      | .ok (texts, tags) => .ok { t1 with texts := texts, tags := tags }

/-- A resolver with a fixed per-tag output: it writes `fout tag` to the
accumulating sink and succeeds. -/
def pureTag (ε : Type) (fout : Str → Str) : TagFn Str ε :=
  fun s tag => .ret none (s ++ fout tag)

/-- The spec's positional concatenation
`literals[0] ++ out(tags[0]) ++ literals[1] ++ …` (spec §3 invariant). -/
def interleave (fout : Str → Str) : List Str → List Str → Str
  | [], _ => []
  | txt :: _, [] => txt
  | txt :: rest, tag :: tagsRest => txt ++ fout tag ++ interleave fout rest tagsRest

/-- The semantic output of rendering a parsed template with per-tag
outputs `fout`: the raw template on the zero-tag fast path, otherwise the
positional concatenation of literals and tag outputs. -/
def renderedOutput (t : Template) (fout : Str → Str) : Str :=
  match t.texts with
  | [] => t.template
  | _ :: _ => interleave fout t.texts t.tags

/-- The value a render call returns to its Go caller: `ExecuteFunc`
returns only the `error`; the sink state is the caller's writer, not a
return value.  `none` here means the call panicked instead of
returning. -/
def execRet : ExecOut σ ε → Option (Option ε)
  | .ret e _ => some e
  | .panicked => none

/-- The sink state after the first `j` fully successful rounds of the
render loop (round = write one literal, then resolve one tag); `none` if
some of those rounds did not complete successfully. -/
def runRounds (W : GoWriter σ ε) (f : TagFn σ ε) :
    Nat → List Str → List Str → σ → Option σ
  | 0, _, _, s => some s
  | j + 1, txt :: rest, tag :: tagsRest, s =>
    let r := W.write s txt
    match r.2.1 with
    | some _ => none
    | none =>
      match f r.2.2 tag with
      | .ret none s2 => runRounds W f j rest tagsRest s2
      | _ => none
  | _ + 1, _, _, _ => none

theorem parseLoop_eq_of_none {tmpl st et : Str} {hst : st ≠ []} {s : Str}
    (hn : strIndex s st = none) :
    parseLoop tmpl st et hst s = .ok ([s], []) := by
  rw [parseLoop.eq_def]
  split
  · rfl
  · simp_all

theorem parseLoop_eq_of_some_none {tmpl st et : Str} {hst : st ≠ []}
    {s : Str} {n : Nat}
    (hn : strIndex s st = some n)
    (hm : strIndex (s.drop (n + st.length)) et = none) :
    parseLoop tmpl st et hst s =
      .error ⟨et, tmpl, s.drop (n + st.length)⟩ := by
  rw [parseLoop.eq_def]
  split
  · simp_all
  next n2 hn2 =>
    rw [hn] at hn2
    cases hn2
    dsimp only
    rw [hm]

theorem parseLoop_eq_of_some_some {tmpl st et : Str} {hst : st ≠ []}
    {s : Str} {n m : Nat}
    (hn : strIndex s st = some n)
    (hm : strIndex (s.drop (n + st.length)) et = some m) :
    parseLoop tmpl st et hst s =
      match parseLoop tmpl st et hst
          ((s.drop (n + st.length)).drop (m + et.length)) with
      | .error e => .error e
      | .ok (texts, tags) =>
        .ok (s.take n :: texts, (s.drop (n + st.length)).take m :: tags) := by
  rw [parseLoop.eq_def]
  split
  · simp_all
  next n2 hn2 =>
    rw [hn] at hn2
    cases hn2
    dsimp only
    rw [hm]

theorem parseLoop_ok_len {tmpl st et : Str} {hst : st ≠ []} {s : Str}
    {texts tags : List Str}
    (h : parseLoop tmpl st et hst s = .ok (texts, tags)) :
    texts.length = tags.length + 1 := by
  induction s using parseLoop.induct tmpl st et hst generalizing texts tags
  next s hn =>
    rw [parseLoop_eq_of_none hn] at h
    cases h
    simp
  next s n hn s1 hm =>
    have hm2 : strIndex (s.drop (n + st.length)) et = none := hm
    rw [parseLoop_eq_of_some_none hn hm2] at h
    cases h
  next s n hn s1 m hm e herr ih =>
    have hm2 : strIndex (s.drop (n + st.length)) et = some m := hm
    have herr2 : parseLoop tmpl st et hst
        ((s.drop (n + st.length)).drop (m + et.length)) = .error e := herr
    rw [parseLoop_eq_of_some_some hn hm2, herr2] at h
    cases h
  next s n hn s1 m hm texts2 tags2 hrec ih =>
    have hm2 : strIndex (s.drop (n + st.length)) et = some m := hm
    have hrec2 : parseLoop tmpl st et hst
        ((s.drop (n + st.length)).drop (m + et.length)) = .ok (texts2, tags2) := hrec
    rw [parseLoop_eq_of_some_some hn hm2, hrec2] at h
    cases h
    simp [ih hrec]

/-- Re-interleaving the parsed literals with `startTag ++ tag ++ endTag`
reconstructs the parsed text. -/
theorem parseLoop_reconstruct {tmpl st et : Str} {hst : st ≠ []} {s : Str}
    {texts tags : List Str}
    (h : parseLoop tmpl st et hst s = .ok (texts, tags)) :
    interleave (fun tag => st ++ tag ++ et) texts tags = s := by
  induction s using parseLoop.induct tmpl st et hst generalizing texts tags
  next s hn =>
    rw [parseLoop_eq_of_none hn] at h
    cases h
    rfl
  next s n hn s1 hm =>
    have hm2 : strIndex (s.drop (n + st.length)) et = none := hm
    rw [parseLoop_eq_of_some_none hn hm2] at h
    cases h
  next s n hn s1 m hm e herr ih =>
    have hm2 : strIndex (s.drop (n + st.length)) et = some m := hm
    have herr2 : parseLoop tmpl st et hst
        ((s.drop (n + st.length)).drop (m + et.length)) = .error e := herr
    rw [parseLoop_eq_of_some_some hn hm2, herr2] at h
    cases h
  next s n hn s1 m hm texts2 tags2 hrec ih =>
    have hm2 : strIndex (s.drop (n + st.length)) et = some m := hm
    have hrec2 : parseLoop tmpl st et hst
        ((s.drop (n + st.length)).drop (m + et.length)) = .ok (texts2, tags2) := hrec
    rw [parseLoop_eq_of_some_some hn hm2, hrec2] at h
    cases h
    have hs := strIndex_split hn
    have hs1 := strIndex_split hm2
    rw [interleave, ih hrec]
    calc s.take n ++ (st ++ (s.drop (n + st.length)).take m ++ et) ++
          (s.drop (n + st.length)).drop (m + et.length)
        = s.take n ++ st ++ ((s.drop (n + st.length)).take m ++ et ++
          (s.drop (n + st.length)).drop (m + et.length)) := by
          simp [List.append_assoc]
      _ = s.take n ++ st ++ s.drop (n + st.length) := by rw [← hs1]
      _ = s := hs.symm

/-- When the scanning loop fails, the error names the end tag and the full
template, and its third operand is the unterminated remainder: it follows
an occurrence of the start delimiter and contains no end-delimiter
occurrence. -/
theorem parseLoop_err {tmpl st et : Str} {hst : st ≠ []} {s : Str}
    {e : MissingEndTagErr}
    (h : parseLoop tmpl st et hst s = .error e) :
    e.endTag = et ∧ e.template = tmpl ∧ strIndex e.startingFrom et = none ∧
      ∃ pre, s = pre ++ st ++ e.startingFrom := by
  induction s using parseLoop.induct tmpl st et hst generalizing e
  next s hn =>
    rw [parseLoop_eq_of_none hn] at h
    cases h
  next s n hn s1 hm =>
    have hm2 : strIndex (s.drop (n + st.length)) et = none := hm
    rw [parseLoop_eq_of_some_none hn hm2] at h
    cases h
    refine ⟨rfl, rfl, hm2, s.take n, ?_⟩
    exact strIndex_split hn
  next s n hn s1 m hm e2 herr ih =>
    have hm2 : strIndex (s.drop (n + st.length)) et = some m := hm
    have herr2 : parseLoop tmpl st et hst
        ((s.drop (n + st.length)).drop (m + et.length)) = .error e2 := herr
    rw [parseLoop_eq_of_some_some hn hm2, herr2] at h
    cases h
    obtain ⟨h1, h2, h3, pre, hpre⟩ := ih herr
    have hpre2 : (s.drop (n + st.length)).drop (m + et.length) =
        pre ++ st ++ e2.startingFrom := hpre
    refine ⟨h1, h2, h3,
      s.take n ++ st ++ (s.drop (n + st.length)).take m ++ et ++ pre, ?_⟩
    have hs := strIndex_split hn
    have hs1 := strIndex_split hm2
    calc s = s.take n ++ st ++ s.drop (n + st.length) := hs
      _ = s.take n ++ st ++ ((s.drop (n + st.length)).take m ++ et ++
          (s.drop (n + st.length)).drop (m + et.length)) := by rw [← hs1]
      _ = s.take n ++ st ++ ((s.drop (n + st.length)).take m ++ et ++
          (pre ++ st ++ e2.startingFrom)) := by rw [hpre2]
      _ = s.take n ++ st ++ (s.drop (n + st.length)).take m ++ et ++ pre ++
          st ++ e2.startingFrom := by simp [List.append_assoc]
  next s n hn s1 m hm texts2 tags2 hrec ih =>
    have hm2 : strIndex (s.drop (n + st.length)) et = some m := hm
    have hrec2 : parseLoop tmpl st et hst
        ((s.drop (n + st.length)).drop (m + et.length)) = .ok (texts2, tags2) := hrec
    rw [parseLoop_eq_of_some_some hn hm2, hrec2] at h
    cases h

@[simp] theorem accWriter_write {ε : Type} (s p : Str) :
    (accWriter ε).write s p = (p.length, none, s ++ p) := rfl

/-- Rendering with the accumulating sink and a per-tag output function
appends exactly the positional interleaving of literals and tag outputs. -/
theorem execLoop_pure {ε : Type} (fout : Str → Str) :
    ∀ (texts tags : List Str) (acc : Str),
      texts.length = tags.length + 1 →
      execLoop (accWriter ε) (pureTag ε fout) texts tags acc =
        .ret none (acc ++ interleave fout texts tags) := by
  intro texts
  induction texts with
  | nil => intro tags acc hlen; simp at hlen
  | cons txt rest ih =>
    intro tags acc hlen
    cases rest with
    | nil =>
      have htags : tags = [] := by
        cases tags with
        | nil => rfl
        | cons a l => simp at hlen
      subst htags
      simp [execLoop, accWriter, interleave]
    | cons t2 rest2 =>
      cases tags with
      | nil => simp at hlen
      | cons tag tagsRest =>
        have hlen2 : (t2 :: rest2).length = tagsRest.length + 1 := by
          simpa using hlen
        simp only [execLoop, accWriter_write, pureTag]
        rw [ih tagsRest (acc ++ txt ++ fout tag) hlen2]
        simp [interleave, List.append_assoc]

/-- The fast path of `ExecuteFunc`: with no parsed literals the raw
template is written once and the write's own result is returned; the
resolver is never consulted. -/
theorem executeFunc_fastpath {σ ε : Type} (W : GoWriter σ ε) (tmpl : Str)
    (f : TagFn σ ε) (s : σ) :
    executeFunc W ⟨tmpl, [], []⟩ f s =
      .ret (W.write s tmpl).2.1 (W.write s tmpl).2.2 := rfl

/-- Rendering a parsed template with the accumulating sink produces the
semantic output and returns a `nil` error. -/
theorem executeFunc_pure {ε : Type} (t : Template) (fout : Str → Str)
    (hwf : t.texts.length = t.tags.length + 1 ∨ t.texts = []) :
    executeFunc (accWriter ε) t (pureTag ε fout) [] =
      .ret none (renderedOutput t fout) := by
  cases ht : t.texts with
  | nil =>
    obtain ⟨tm, tx, tg⟩ := t
    simp only at ht
    subst ht
    simp [executeFunc, accWriter, renderedOutput]
  | cons txt rest =>
    have hlen : t.texts.length = t.tags.length + 1 := by
      rcases hwf with h | h
      · exact h
      · rw [h] at ht; cases ht
    obtain ⟨tm, tx, tg⟩ := t
    simp only at ht
    subst ht
    simp only [executeFunc, renderedOutput]
    rw [execLoop_pure fout _ _ [] hlen]
    simp

/-- Failure characterization of the render loop: a returned error is the
error of the first failing operation — either the write of the literal at
some round `j` reached after `j` fully successful rounds, or the resolver
call for the tag of round `j` right after that literal was written — and
the final sink state is exactly the failing operation's state: nothing
later is written or resolved, nothing earlier is undone. -/
theorem execLoop_fail {σ ε : Type} (W : GoWriter σ ε) (f : TagFn σ ε) :
    ∀ (texts tags : List Str) (s0 : σ) (e : ε) (s' : σ),
      texts.length = tags.length + 1 →
      execLoop W f texts tags s0 = .ret (some e) s' →
      ∃ j s_j, runRounds W f j texts tags s0 = some s_j ∧ j ≤ tags.length ∧
        (((W.write s_j (texts.getD j [])).2.1 = some e ∧
          (W.write s_j (texts.getD j [])).2.2 = s') ∨
         (j < tags.length ∧ (W.write s_j (texts.getD j [])).2.1 = none ∧
          f (W.write s_j (texts.getD j [])).2.2 (tags.getD j []) =
            .ret (some e) s')) := by
  intro texts
  induction texts with
  | nil => intro tags s0 e s' hlen h; simp at hlen
  | cons txt rest ih =>
    intro tags s0 e s' hlen h
    cases rest with
    | nil =>
      have htags : tags = [] := by
        cases tags with
        | nil => rfl
        | cons a l => simp at hlen
      subst htags
      simp only [execLoop] at h
      refine ⟨0, s0, rfl, Nat.le_refl 0, .inl ?_⟩
      cases hw : (W.write s0 txt).2.1 with
      | none => rw [hw] at h; cases h
      | some e2 =>
        rw [hw] at h
        cases h
        exact ⟨hw, rfl⟩
    | cons t2 rest2 =>
      cases tags with
      | nil => simp at hlen
      | cons tag tagsRest =>
        have hlen2 : (t2 :: rest2).length = tagsRest.length + 1 := by
          simpa using hlen
        simp only [execLoop] at h
        cases hw : (W.write s0 txt).2.1 with
        | some e2 =>
          rw [hw] at h
          cases h
          exact ⟨0, s0, rfl, Nat.zero_le _, .inl ⟨hw, rfl⟩⟩
        | none =>
          rw [hw] at h
          cases hf : f (W.write s0 txt).2.2 tag with
          | panicked => rw [hf] at h; cases h
          | ret e2 s2 =>
            rw [hf] at h
            cases e2 with
            | some e3 =>
              cases h
              exact ⟨0, s0, rfl, Nat.zero_le _,
                .inr ⟨Nat.succ_pos _, hw, hf⟩⟩
            | none =>
              obtain ⟨j, s_j, hrun, hle, hcase⟩ :=
                ih tagsRest s2 e s' hlen2 h
              refine ⟨j + 1, s_j, ?_, Nat.succ_le_succ hle, ?_⟩
              · simp only [runRounds, hw, hf]
                exact hrun
              · simpa using hcase

theorem newTemplate_eq_fast {tmpl st et : Str} (hst : st ≠ []) (het : et ≠ [])
    (h0 : strCount tmpl st = 0) :
    newTemplate tmpl st et = .ok ⟨tmpl, [], []⟩ := by
  unfold newTemplate
  rw [dif_neg hst, if_neg het, if_pos h0]

theorem newTemplate_eq_parse {tmpl st et : Str} (hst : st ≠ []) (het : et ≠ [])
    (h0 : strCount tmpl st ≠ 0) :
    newTemplate tmpl st et =
      match parseLoop tmpl st et hst tmpl with
      | .error e => .err e
      | .ok (texts, tags) => .ok ⟨[], texts, tags⟩ := by
  unfold newTemplate
  rw [dif_neg hst, if_neg het, if_neg h0]

/-- Inversion for a successful parse: either the zero-tag fast path was
taken, or the scanning loop produced the literals and tags and the
`template` field was left `nil`. -/
theorem newTemplate_ok_inv {tmpl st et : Str} {t : Template}
    (h : newTemplate tmpl st et = .ok t) :
    ∃ hst : st ≠ [],
      (strCount tmpl st = 0 ∧ t = ⟨tmpl, [], []⟩) ∨
      (parseLoop tmpl st et hst tmpl = .ok (t.texts, t.tags) ∧
        t.template = []) := by
  by_cases hst : st = []
  · unfold newTemplate at h
    rw [dif_pos hst] at h
    cases h
  by_cases het : et = []
  · unfold newTemplate at h
    rw [dif_neg hst, if_pos het] at h
    cases h
  by_cases h0 : strCount tmpl st = 0
  · rw [newTemplate_eq_fast hst het h0] at h
    cases h
    exact ⟨hst, .inl ⟨h0, rfl⟩⟩
  · rw [newTemplate_eq_parse hst het h0] at h
    refine ⟨hst, .inr ?_⟩
    cases hp : parseLoop tmpl st et hst tmpl with
    | error e => rw [hp] at h; cases h
    | ok r =>
      obtain ⟨texts, tags⟩ := r
      rw [hp] at h
      injection h with h2
      subst h2
      exact ⟨hp ▸ rfl, rfl⟩

/-- Claim C1: for a successfully parsed template, rendering through
`ExecuteFunc` with any per-tag output function produces exactly the
in-order concatenation `literals[0] ++ out(tags[0]) ++ literals[1] ++ …
++ literals[K]` in the sink with a nil error; in particular, the
resolver writing `startTag ++ tag ++ endTag` reconstructs the original
template text exactly. -/
theorem c1_render_is_concat {tmpl st et : Str} {t : Template}
    (h : newTemplate tmpl st et = .ok t) :
    (∀ fout : Str → Str,
      executeFunc (accWriter Unit) t (pureTag Unit fout) [] =
        .ret none (renderedOutput t fout)) ∧
    executeFunc (accWriter Unit) t
        (pureTag Unit (fun tag => st ++ tag ++ et)) [] =
      .ret none tmpl := by
  obtain ⟨hst, hcase⟩ := newTemplate_ok_inv h
  rcases hcase with ⟨h0, ht⟩ | ⟨hp, htm⟩
  · subst ht
    refine ⟨fun fout => executeFunc_pure _ fout (.inr rfl), ?_⟩
    rw [executeFunc_pure _ _ (.inr rfl)]
    rfl
  · have hlen := parseLoop_ok_len hp
    refine ⟨fun fout => executeFunc_pure _ fout (.inl hlen), ?_⟩
    rw [executeFunc_pure _ _ (.inl hlen)]
    have hrec := parseLoop_reconstruct hp
    obtain ⟨tm, tx, tg⟩ := t
    simp only at htm hp hlen
    subst htm
    cases tx with
    | nil => simp at hlen
    | cons txt rest =>
      simp only [renderedOutput]
      rw [hrec]

/-- Claim C1 witness: parsing `"a{b}c"` with delimiters `"{"`, `"}"` and
rendering it reproduces the concatenation, and the delimiter-restoring
resolver rebuilds the template text. -/
theorem c1_render_is_concat_witness :
    (∀ fout : Str → Str,
      executeFunc (accWriter Unit) ⟨[], [['a'], ['c']], [['b']]⟩
          (pureTag Unit fout) [] =
        .ret none (renderedOutput ⟨[], [['a'], ['c']], [['b']]⟩ fout)) ∧
    executeFunc (accWriter Unit) ⟨[], [['a'], ['c']], [['b']]⟩
        (pureTag Unit (fun tag => ['{'] ++ tag ++ ['}'])) [] =
      .ret none ['a', '{', 'b', '}', 'c'] :=
  c1_render_is_concat (by
    simp [newTemplate, strCount, countAux, strIndex, parseLoop,
      List.isPrefixOf])

/-- Claim C4: when the start delimiter does not occur in the template (and
the end delimiter is non-empty, per the construction precondition),
parsing succeeds immediately with the raw template stored and empty
literal/tag sequences, and every render performs exactly one write of the
raw template text, returning that write's outcome, for any resolver —
two renders with different resolvers are identical, so the resolver is
never invoked. -/
theorem c4_no_tags_fastpath {tmpl st et : Str}
    (hnone : strIndex tmpl st = none) (het : et ≠ []) :
    newTemplate tmpl st et = .ok ⟨tmpl, [], []⟩ ∧
    ∀ (σ ε : Type) (W : GoWriter σ ε) (f g : TagFn σ ε) (s : σ),
      executeFunc W ⟨tmpl, [], []⟩ f s =
        .ret (W.write s tmpl).2.1 (W.write s tmpl).2.2 ∧
      executeFunc W ⟨tmpl, [], []⟩ f s = executeFunc W ⟨tmpl, [], []⟩ g s := by
  have hst : st ≠ [] := by
    intro he
    subst he
    rw [strIndex_of_isPrefixOf (by simp [List.isPrefixOf])] at hnone
    cases hnone
  refine ⟨newTemplate_eq_fast hst het ((strCount_eq_zero_iff hst).mpr hnone),
    fun σ ε W f g s => ⟨executeFunc_fastpath W tmpl f s, rfl⟩⟩

/-- Claim C4 witness: `"abc"` contains no `"{"`; parsing stores the raw
text, and a render is a single verbatim write. -/
theorem c4_no_tags_fastpath_witness :
    newTemplate ['a', 'b', 'c'] ['{'] ['}'] = .ok ⟨['a', 'b', 'c'], [], []⟩ ∧
    ∀ (σ ε : Type) (W : GoWriter σ ε) (f g : TagFn σ ε) (s : σ),
      executeFunc W ⟨['a', 'b', 'c'], [], []⟩ f s =
        .ret (W.write s ['a', 'b', 'c']).2.1 (W.write s ['a', 'b', 'c']).2.2 ∧
      executeFunc W ⟨['a', 'b', 'c'], [], []⟩ f s =
        executeFunc W ⟨['a', 'b', 'c'], [], []⟩ g s :=
  c4_no_tags_fastpath (by simp [strIndex, List.isPrefixOf]) (by simp)

/-- Claim C9: an empty start or end delimiter makes both `NewTemplate` and
`New` panic with the precondition message — neither an error value nor a
parsed template is ever produced. -/
theorem c9_empty_delim_panics {tmpl st et : Str} (h : st = [] ∨ et = []) :
    ∃ m : String, newTemplate tmpl st et = .panicked (.msg m) ∧
      new tmpl st et = .panicked (.msg m) := by
  by_cases hst : st = []
  · refine ⟨"fasttemplate: startTag cannot be empty", ?_, ?_⟩
    · unfold newTemplate
      rw [dif_pos hst]
    · unfold new newTemplate
      rw [dif_pos hst]
  · have het : et = [] := by
      rcases h with h | h
      · exact absurd h hst
      · exact h
    refine ⟨"fasttemplate: endTag cannot be empty", ?_, ?_⟩
    · unfold newTemplate
      rw [dif_neg hst, if_pos het]
    · unfold new newTemplate
      rw [dif_neg hst, if_pos het]

/-- Claim C9 witness: the empty start delimiter panics on both entry
points. -/
theorem c9_empty_delim_panics_witness :
    ∃ m : String,
      newTemplate ['a'] [] ['}'] = .panicked (.msg m) ∧
      new ['a'] [] ['}'] = .panicked (.msg m) :=
  c9_empty_delim_panics (Or.inl rfl)

/-- Claim C10: a map entry that is present but stores Go `nil` is handled
by `stdTagFunc` exactly like an absent key: nothing is written, success is
reported, and no type-dispatch panic occurs. -/
theorem c10_nil_value_like_absent {σ ε : Type} (W : GoWriter σ ε)
    (m : List (Str × GoVal σ ε)) (s : σ) (name : Str) :
    stdTagFunc W ((name, .vnil) :: m) s name = .ret none s ∧
    stdTagFunc W ((name, .vnil) :: m) s name = stdTagFunc W [] s name := by
  constructor <;> simp [stdTagFunc, mapGet]

/-- Claim C6: case analysis of the default resolver: a `nil` value writes
nothing and succeeds; byte-sequence and string values are written verbatim
with the write's result propagated; a stored `TagFunc` is invoked on the
same sink and tag name with its result propagated; any other value type
panics. -/
theorem c6_stdTagFunc_cases {σ ε : Type} (W : GoWriter σ ε)
    (m : List (Str × GoVal σ ε)) (s : σ) (tag : Str) :
    (mapGet m tag = .vnil → stdTagFunc W m s tag = .ret none s) ∧
    (∀ b, mapGet m tag = .bytes b →
      stdTagFunc W m s tag = .ret (W.write s b).2.1 (W.write s b).2.2) ∧
    (∀ v, mapGet m tag = .vstr v →
      stdTagFunc W m s tag = .ret (W.write s v).2.1 (W.write s v).2.2) ∧
    (∀ f, mapGet m tag = .fn f → stdTagFunc W m s tag = f s tag) ∧
    (mapGet m tag = .other → stdTagFunc W m s tag = .panicked) := by
  refine ⟨fun h => ?_, fun b h => ?_, fun v h => ?_, fun f h => ?_,
    fun h => ?_⟩ <;> simp [stdTagFunc, h]

/-- Claim C6 witness: a stored byte value is written verbatim with a nil
error. -/
theorem c6_stdTagFunc_cases_witness :
    stdTagFunc (accWriter Unit) [(['k'], GoVal.bytes ['v'])] [] ['k'] =
      .ret none ['v'] :=
  (c6_stdTagFunc_cases (accWriter Unit) [(['k'], GoVal.bytes ['v'])]
    [] ['k']).2.1 ['v'] rfl

/-- Claim C2 counterexample: in `"yzxyz"` with delimiters `"yz"`/`"xy"`,
the start-delimiter occurrence at index 3 has no end-delimiter occurrence
after it (no `"xy"` occurs in the tail from index 3 on), yet `NewTemplate`
succeeds instead of failing: the scan consumes the occurrence at index 0,
closes it with the `"xy"` at index 2, and never consumes the occurrence at
index 3. -/
theorem c2_counterexample :
    List.isPrefixOf ['y', 'z'] (List.drop 3 ['y', 'z', 'x', 'y', 'z']) = true ∧
    strIndex (List.drop 3 ['y', 'z', 'x', 'y', 'z']) ['x', 'y'] = none ∧
    newTemplate ['y', 'z', 'x', 'y', 'z'] ['y', 'z'] ['x', 'y'] =
      .ok ⟨[], [[], ['z']], [[]]⟩ := by
  refine ⟨by decide, by decide, ?_⟩
  simp [newTemplate, strCount, countAux, strIndex, parseLoop, List.isPrefixOf]

/-- Claim C2 (amended): with non-empty delimiters, parsing either succeeds
(and `New` returns the same template), or it stops at a consumed start
delimiter whose remainder contains no end-delimiter occurrence; then
`NewTemplate` returns the missing-end-tag error carrying the end tag, the
full template, and the unterminated remainder (which directly follows a
start-delimiter occurrence), and `New` escalates exactly that error to a
panic. -/
theorem c2_missing_end_tag (tmpl st et : Str) (hst : st ≠ []) (het : et ≠ []) :
    (∃ t, newTemplate tmpl st et = .ok t ∧ new tmpl st et = .ok t) ∨
    (∃ e, newTemplate tmpl st et = .err e ∧
      new tmpl st et = .panicked (.errv e) ∧
      e.endTag = et ∧ e.template = tmpl ∧ strIndex e.startingFrom et = none ∧
      ∃ pre, tmpl = pre ++ st ++ e.startingFrom) := by
  by_cases h0 : strCount tmpl st = 0
  · left
    refine ⟨⟨tmpl, [], []⟩, newTemplate_eq_fast hst het h0, ?_⟩
    unfold new
    rw [newTemplate_eq_fast hst het h0]
  · cases hp : parseLoop tmpl st et hst tmpl with
    | error e =>
      right
      obtain ⟨h1, h2, h3, pre, hpre⟩ := parseLoop_err hp
      have hnt : newTemplate tmpl st et = .err e := by
        rw [newTemplate_eq_parse hst het h0, hp]
      refine ⟨e, hnt, ?_, h1, h2, h3, pre, hpre⟩
      unfold new
      rw [hnt]
    | ok r =>
      obtain ⟨texts, tags⟩ := r
      left
      have hnt : newTemplate tmpl st et = .ok ⟨[], texts, tags⟩ := by
        rw [newTemplate_eq_parse hst het h0, hp]
      refine ⟨⟨[], texts, tags⟩, hnt, ?_⟩
      unfold new
      rw [hnt]

/-- Claim C2 witness: `"foo{bar"` with delimiters `"{"`/`"}"` takes the
error branch — the unterminated remainder is `"bar"` — and `New` panics
with that error. -/
theorem c2_missing_end_tag_witness :
    (∃ t, newTemplate ['f', 'o', 'o', '{', 'b', 'a', 'r'] ['{'] ['}'] = .ok t ∧
      new ['f', 'o', 'o', '{', 'b', 'a', 'r'] ['{'] ['}'] = .ok t) ∨
    (∃ e,
      newTemplate ['f', 'o', 'o', '{', 'b', 'a', 'r'] ['{'] ['}'] = .err e ∧
      new ['f', 'o', 'o', '{', 'b', 'a', 'r'] ['{'] ['}'] =
        .panicked (.errv e) ∧
      e.endTag = ['}'] ∧ e.template = ['f', 'o', 'o', '{', 'b', 'a', 'r'] ∧
      strIndex e.startingFrom ['}'] = none ∧
      ∃ pre, ['f', 'o', 'o', '{', 'b', 'a', 'r'] =
        pre ++ ['{'] ++ e.startingFrom) :=
  c2_missing_end_tag ['f', 'o', 'o', '{', 'b', 'a', 'r'] ['{'] ['}']
    (by decide) (by decide)

/-- Claim C3 counterexample: two error-free renders that write different
byte totals (2 and 4 bytes) hand the very same value back to the caller —
a bare nil error (`some none`), carrying no byte count — so `ExecuteFunc`
does not return the accumulated byte count (its Go signature returns only
`error`). -/
theorem c3_counterexample :
    newTemplate ['a', 'b'] ['{'] ['}'] = .ok ⟨['a', 'b'], [], []⟩ ∧
    newTemplate ['a', 'b', 'c', 'd'] ['{'] ['}'] =
      .ok ⟨['a', 'b', 'c', 'd'], [], []⟩ ∧
    executeFunc (accWriter Unit) ⟨['a', 'b'], [], []⟩ (pureTag Unit id) [] =
      .ret none ['a', 'b'] ∧
    executeFunc (accWriter Unit) ⟨['a', 'b', 'c', 'd'], [], []⟩
        (pureTag Unit id) [] = .ret none ['a', 'b', 'c', 'd'] ∧
    execRet (executeFunc (accWriter Unit) ⟨['a', 'b'], [], []⟩
        (pureTag Unit id) []) =
      execRet (executeFunc (accWriter Unit) ⟨['a', 'b', 'c', 'd'], [], []⟩
        (pureTag Unit id) []) ∧
    (['a', 'b'] : Str).length ≠ (['a', 'b', 'c', 'd'] : Str).length := by
  refine ⟨rfl, rfl, rfl, rfl, rfl, by decide⟩

/-- Claim C3 (amended): the streaming entry points return to the caller
only the error outcome — a nil error on an error-free render, with the
accumulated bytes visible solely in the sink — and `Execute` is exactly
`ExecuteFunc` with the default map resolver over the same writer. -/
theorem c3_error_only_return (t : Template) (fout : Str → Str)
    (hwf : t.texts.length = t.tags.length + 1 ∨ t.texts = []) :
    executeFunc (accWriter Unit) t (pureTag Unit fout) [] =
      .ret none (renderedOutput t fout) ∧
    execRet (executeFunc (accWriter Unit) t (pureTag Unit fout) []) =
      some none ∧
    ∀ (σ ε : Type) (W : GoWriter σ ε) (m : List (Str × GoVal σ ε)) (s : σ),
      execute W t m s =
        executeFunc W t (fun w tag => stdTagFunc W m w tag) s := by
  have hp := executeFunc_pure (ε := Unit) t fout hwf
  exact ⟨hp, by rw [hp]; rfl, fun σ ε W m s => rfl⟩

/-- Claim C3 witness: rendering the parsed `"ab"` returns a nil error; the
two bytes appear only in the sink state. -/
theorem c3_error_only_return_witness :
    executeFunc (accWriter Unit) ⟨['a', 'b'], [], []⟩ (pureTag Unit id) [] =
      .ret none (renderedOutput ⟨['a', 'b'], [], []⟩ id) ∧
    execRet (executeFunc (accWriter Unit) ⟨['a', 'b'], [], []⟩
        (pureTag Unit id) []) = some none ∧
    ∀ (σ ε : Type) (W : GoWriter σ ε) (m : List (Str × GoVal σ ε)) (s : σ),
      execute W ⟨['a', 'b'], [], []⟩ m s =
        executeFunc W ⟨['a', 'b'], [], []⟩
          (fun w tag => stdTagFunc W m w tag) s :=
  c3_error_only_return ⟨['a', 'b'], [], []⟩ id (.inr rfl)

/-- Claim C5: when a render returns an error, the error and the final sink
state are exactly those of the first failing operation — the literal write
or the resolver call of some round `j` reached after `j` fully successful
rounds.  Nothing positioned after the failure is written or resolved, and
the state reached before the failure is kept (no rollback or retry). -/
theorem c5_abort_on_first_failure {σ ε : Type} (W : GoWriter σ ε)
    (f : TagFn σ ε) (t : Template) (s0 : σ) (e : ε) (s' : σ)
    (hwf : t.texts.length = t.tags.length + 1)
    (h : executeFunc W t f s0 = .ret (some e) s') :
    ∃ j s_j, runRounds W f j t.texts t.tags s0 = some s_j ∧
      j ≤ t.tags.length ∧
      (((W.write s_j (t.texts.getD j [])).2.1 = some e ∧
        (W.write s_j (t.texts.getD j [])).2.2 = s') ∨
       (j < t.tags.length ∧
        (W.write s_j (t.texts.getD j [])).2.1 = none ∧
        f (W.write s_j (t.texts.getD j [])).2.2 (t.tags.getD j []) =
          .ret (some e) s')) := by
  obtain ⟨tm, tx, tg⟩ := t
  cases tx with
  | nil => simp at hwf
  | cons txt rest =>
    simp only [executeFunc] at h
    exact execLoop_fail W f (txt :: rest) tg s0 e s' hwf h

/-- Claim C5 witness: with literals `"a","b","c"` and tags `"x","y"`, a
resolver that fails on `"y"` aborts the render after round 1: the returned
error and state are those of the failing resolver call. -/
theorem c5_abort_on_first_failure_witness :
    ∃ j s_j,
      runRounds (accWriter Nat)
        (fun s tag =>
          if tag = ['y'] then .ret (some 7) s else .ret none (s ++ ['!']))
        j [['a'], ['b'], ['c']] [['x'], ['y']] [] = some s_j ∧
      j ≤ ([['x'], ['y']] : List Str).length ∧
      ((((accWriter Nat).write s_j
          ([['a'], ['b'], ['c']].getD j [])).2.1 = some 7 ∧
        ((accWriter Nat).write s_j
          ([['a'], ['b'], ['c']].getD j [])).2.2 = ['a', '!', 'b']) ∨
       (j < ([['x'], ['y']] : List Str).length ∧
        ((accWriter Nat).write s_j
          ([['a'], ['b'], ['c']].getD j [])).2.1 = none ∧
        (fun (s : Str) (tag : Str) =>
          if tag = ['y'] then TagOut.ret (some 7) s
          else TagOut.ret none (s ++ ['!']))
          ((accWriter Nat).write s_j
            ([['a'], ['b'], ['c']].getD j [])).2.2
          ([['x'], ['y']].getD j []) = .ret (some 7) ['a', '!', 'b'])) :=
  c5_abort_on_first_failure (accWriter Nat)
    (fun s tag =>
      if tag = ['y'] then .ret (some 7) s else .ret none (s ++ ['!']))
    ⟨[], [['a'], ['b'], ['c']], [['x'], ['y']]⟩ [] 7 ['a', '!', 'b']
    (by decide) (by decide)

theorem reset_eq_fast {tmpl st et : Str} (t : Template) (hst : st ≠ [])
    (het : et ≠ []) (h0 : strCount tmpl st = 0) :
    reset t tmpl st et = .ok ⟨tmpl, [], []⟩ := by
  unfold reset
  rw [dif_neg hst, if_neg het, if_pos h0]

theorem reset_eq_parse {tmpl st et : Str} (t : Template) (hst : st ≠ [])
    (het : et ≠ []) (h0 : strCount tmpl st ≠ 0) :
    reset t tmpl st et =
      match parseLoop tmpl st et hst tmpl with
      | .error e => .err e
      | .ok (texts, tags) => .ok ⟨tmpl, texts, tags⟩ := by
  unfold reset
  rw [dif_neg hst, if_neg het, if_neg h0]

/-- Claim C7: re-parsing an instance in place discards all prior literals
and tags — the result never depends on the instance's previous contents —
and its literals and tags are exactly those of a fresh parse of the new
inputs (with the raw template content retained, as the spec's data model
keeps it); a parse error of the new inputs is returned unchanged. -/
theorem c7_reset_no_stale (t u : Template) (tmpl st et : Str) :
    reset t tmpl st et = reset u tmpl st et ∧
    (∀ v, newTemplate tmpl st et = .ok v →
      reset t tmpl st et = .ok ⟨tmpl, v.texts, v.tags⟩) ∧
    (∀ e, newTemplate tmpl st et = .err e →
      reset t tmpl st et = .err e) := by
  refine ⟨rfl, ?_, ?_⟩
  · intro v hv
    by_cases hst : st = []
    · unfold newTemplate at hv
      rw [dif_pos hst] at hv
      cases hv
    by_cases het : et = []
    · unfold newTemplate at hv
      rw [dif_neg hst, if_pos het] at hv
      cases hv
    by_cases h0 : strCount tmpl st = 0
    · rw [newTemplate_eq_fast hst het h0] at hv
      injection hv with hv2
      subst hv2
      exact reset_eq_fast t hst het h0
    · rw [newTemplate_eq_parse hst het h0] at hv
      rw [reset_eq_parse t hst het h0]
      cases hp : parseLoop tmpl st et hst tmpl with
      | error e => rw [hp] at hv; cases hv
      | ok r =>
        obtain ⟨texts, tags⟩ := r
        rw [hp] at hv
        injection hv with hv2
        subst hv2
        rfl
  · intro e he
    by_cases hst : st = []
    · unfold newTemplate at he
      rw [dif_pos hst] at he
      cases he
    by_cases het : et = []
    · unfold newTemplate at he
      rw [dif_neg hst, if_pos het] at he
      cases he
    by_cases h0 : strCount tmpl st = 0
    · rw [newTemplate_eq_fast hst het h0] at he
      cases he
    · rw [newTemplate_eq_parse hst het h0] at he
      rw [reset_eq_parse t hst het h0]
      cases hp : parseLoop tmpl st et hst tmpl with
      | error e2 =>
        rw [hp] at he
        injection he with he2
        subst he2
        rfl
      | ok r =>
        obtain ⟨texts, tags⟩ := r
        rw [hp] at he
        cases he

/-- Claim C7 witness: an instance holding stale literals and tags,
re-parsed against `"a{b}c"`, yields exactly the fresh parse's literals and
tags with the new raw template — no stale entries survive. -/
theorem c7_reset_no_stale_witness :
    reset ⟨['j'], [['j'], ['j']], [['j']]⟩
        ['a', '{', 'b', '}', 'c'] ['{'] ['}'] =
      .ok ⟨['a', '{', 'b', '}', 'c'], [['a'], ['c']], [['b']]⟩ :=
  (c7_reset_no_stale ⟨['j'], [['j'], ['j']], [['j']]⟩ ⟨[], [], []⟩
      ['a', '{', 'b', '}', 'c'] ['{'] ['}']).2.1
    ⟨[], [['a'], ['c']], [['b']]⟩
    (by simp [newTemplate, strCount, countAux, strIndex, parseLoop,
      List.isPrefixOf])

/-- Claim C8: the buffer- and string-returning render variants panic
whenever the underlying render reports a failure, return the accumulated
output on success, agree with each other (the string result is the text
conversion of the byte result, the identity over `Str`), and the map-based
variants are the function variants applied to the default resolver. -/
theorem c8_accumulating_variants {ε : Type} (t : Template) (f : TagFn Str ε) :
    (∀ e s, executeFunc (accWriter ε) t f [] = .ret (some e) s →
      executeFuncBytes ε f t = .panicked ∧
      executeFuncString ε f t = .panicked) ∧
    (∀ s, executeFunc (accWriter ε) t f [] = .ret none s →
      executeFuncBytes ε f t = .ok s ∧ executeFuncString ε f t = .ok s) ∧
    executeFuncString ε f t = executeFuncBytes ε f t ∧
    ∀ m : List (Str × GoVal Str ε),
      executeBytes ε m t =
        executeFuncBytes ε (fun w tag => stdTagFunc (accWriter ε) m w tag) t ∧
      executeString ε m t =
        executeFuncString ε (fun w tag => stdTagFunc (accWriter ε) m w tag) t := by
  refine ⟨?_, ?_, ?_, fun m => ⟨rfl, rfl⟩⟩
  · intro e s h
    refine ⟨?_, ?_⟩
    · unfold executeFuncBytes; rw [h]
    · unfold executeFuncString; rw [h]
  · intro s h
    refine ⟨?_, ?_⟩
    · unfold executeFuncBytes; rw [h]
    · unfold executeFuncString; rw [h]
  · unfold executeFuncBytes executeFuncString
    rfl

/-- Claim C8 witness: a resolver failure makes both accumulate-and-return
variants panic instead of returning an error value. -/
theorem c8_accumulating_variants_witness :
    executeFuncBytes Nat (fun s _ => .ret (some 3) s)
        ⟨[], [['a'], ['b']], [['x']]⟩ = .panicked ∧
    executeFuncString Nat (fun s _ => .ret (some 3) s)
        ⟨[], [['a'], ['b']], [['x']]⟩ = .panicked :=
  (c8_accumulating_variants ⟨[], [['a'], ['b']], [['x']]⟩
      (fun s _ => .ret (some 3) s)).1 3 ['a'] (by decide)

end Fasttemplate
